import Mathlib

/-!
Verification of the resume-checking engine in `app.py`.

The Python source is shallowly embedded: strings stay `String`, Python
`set` becomes `Finset String`, Python float arithmetic on scores becomes
exact rational arithmetic (`ℚ`), and the two external collaborators
(the PDF/DOCX readers and the sentence-embedding model) become explicit
function parameters, so every definition below is a pure, executable
translation of the corresponding Python function.
-/

namespace ResumeChecker

/-- The whitespace class used by Python's `\s`, `str.split()` and
`str.strip()` restricted to the ASCII range (space, tab, newline,
carriage return, vertical tab, form feed). -/
def isSpaceChar (c : Char) : Bool :=
  c == ' ' || c == '\t' || c == '\n' || c == '\r' || c == '\x0b' || c == '\x0c'

/-- Replace every maximal run of whitespace characters by a single ASCII
space, as `re.sub(r"\s+", " ", text)` does. -/
def collapseWS : List Char → List Char
  | [] => []
  | [c] => if isSpaceChar c then [' '] else [c]
  | a :: b :: t =>
    if isSpaceChar a then
      if isSpaceChar b then collapseWS (b :: t)
      else ' ' :: collapseWS (b :: t)
    else a :: collapseWS (b :: t)

/-- Remove leading and trailing whitespace, as Python `str.strip()`. -/
def stripWS (cs : List Char) : List Char :=
  ((cs.dropWhile isSpaceChar).reverse.dropWhile isSpaceChar).reverse

/-- Lower-case a string character by character, as Python `str.lower()`
on ASCII text. -/
def lowerStr (s : String) : String :=
  String.mk (s.toList.map Char.toLower)

/-- `clean_text` from `app.py`: collapse whitespace runs to single
spaces, strip the ends, lower-case the result. -/
def clean_text (s : String) : String :=
  String.mk ((stripWS (collapseWS s.toList)).map Char.toLower)

/-- `needle` is an initial segment of `hay` (character-wise). -/
def leadsWith : List Char → List Char → Bool
  | [], _ => true
  | _ :: _, [] => false
  | a :: as, b :: bs => a == b && leadsWith as bs

/-- `needle` occurs somewhere inside `hay`, as Python's substring test
`needle in hay`. -/
def occursIn (needle : List Char) : List Char → Bool
  | [] => needle.isEmpty
  | c :: t => leadsWith needle (c :: t) || occursIn needle t

/-- Substring test on strings: Python's `needle in hay`. -/
def strOccurs (needle hay : String) : Bool :=
  occursIn needle.toList hay.toList

/-- `hay` ends with `sfx`, as Python's `str.endswith`. -/
def strTrails (sfx hay : String) : Bool :=
  leadsWith sfx.toList.reverse hay.toList.reverse

/-- Join a list of strings with single spaces, as `" ".join(...)`. -/
def joinSpace (l : List String) : String :=
  String.intercalate " " l

/-- `SKILLS_LIST` from `app.py`: the fixed reference vocabulary. -/
def SKILLS_LIST : List String :=
  ["python", "java", "sql", "ml", "machine learning", "cloud", "docker", "kubernetes",
   "excel", "c++", "tensorflow", "pytorch", "aws", "azure", "linux", "git"]

/-- `extract_text` from `app.py`.  The PDF and DOCX readers are external
libraries (`fitz`, `python-docx`); they are passed in as oracles giving
the list of page texts (resp. paragraph texts) of the file at a path.
Any other extension falls through to the empty string. -/
def extract_text (pdfPages docxParas : String → List String) (file_path : String) : String :=
  if strTrails ".pdf" (lowerStr file_path) then joinSpace (pdfPages file_path)
  else if strTrails ".docx" (lowerStr file_path) then joinSpace (docxParas file_path)
  else ""

/-- The list comprehension `[s for s in SKILLS_LIST if s in text]` in
`parse_resume`. -/
def skillsOf (text : String) : List String :=
  SKILLS_LIST.filter (fun s => strOccurs s text)

/-- The trigger alternatives of the Education regex in `parse_resume`. -/
def educationTriggers : List String :=
  ["education", "bachelor", "master", "degree", "university", "college"]

/-- The trigger alternatives of the Experience regex in `parse_resume`. -/
def experienceTriggers : List String :=
  ["experience", "worked", "intern", "project", "developed"]

/-- The trigger alternatives of the Projects regex in `parse_resume`. -/
def projectsTriggers : List String :=
  ["project", "built", "developed", "created"]

/-- Scan positions left to right; at the first position where some
trigger matches, return the first matching alternative (Python regex
alternation preference).  This is the group capture of the leftmost
match of `(t1|t2|...)` in the text. -/
def firstTriggerAt (triggers : List String) : List Char → Option String
  | [] => none
  | c :: t =>
    match triggers.find? (fun s => leadsWith s.toList (c :: t)) with
    | some s => some s
    | none => firstTriggerAt triggers t

/-- `" ".join(re.findall(r"(t1|t2|...).*", text))` for text produced by
`clean_text`.  Such text contains no newline, so `.*` runs to the end of
the string; `re.findall` with one capture group returns the group
matches, and after the first match consumes the rest of the string no
further match is possible, so the result is the single captured trigger
word of the leftmost match, or the empty string when nothing matches. -/
def sectionCapture (triggers : List String) (text : String) : String :=
  match firstTriggerAt triggers text.toList with
  | some s => s
  | none => ""

/-- The dictionary returned by `parse_resume`. -/
structure ParsedResume where
  Education : String
  Skills : String
  Experience : String
  Projects : String
  FullText : String
  deriving Repr, DecidableEq

/-- The body of `parse_resume` applied to the already-extracted raw
text of the resume file. -/
def parse_resume_text (raw : String) : ParsedResume :=
  let text := clean_text raw
  { Education := sectionCapture educationTriggers text
    Skills := joinSpace (skillsOf text)
    Experience := sectionCapture experienceTriggers text
    Projects := sectionCapture projectsTriggers text
    FullText := text }

/-- `parse_resume` from `app.py`: extract, then clean, then parse. -/
def parse_resume (pdfPages docxParas : String → List String) (file_path : String) :
    ParsedResume :=
  parse_resume_text (extract_text pdfPages docxParas file_path)

/-- Python `str.split()` with no separator: split on whitespace runs,
dropping empty tokens. -/
def tokensAux (acc : List Char) : List Char → List (List Char)
  | [] => if acc.isEmpty then [] else [acc.reverse]
  | c :: t =>
    if isSpaceChar c then
      if acc.isEmpty then tokensAux [] t else acc.reverse :: tokensAux [] t
    else tokensAux (c :: acc) t

/-- The word list `text.split()` of a string. -/
def pywords (s : String) : List String :=
  (tokensAux [] s.toList).map (fun cs => String.mk cs)

/-- The word set `set(text.split())` of a string. -/
def wordSet (s : String) : Finset String :=
  (pywords s).toFinset

/-- The keyword overlap score from `evaluate_resume`:
`len(resume_words & jd_words) / max(len(jd_words), 1)`. -/
def keyword_score (resume_text jd_text : String) : ℚ :=
  ((wordSet resume_text ∩ wordSet jd_text).card : ℚ) /
    ((max (wordSet jd_text).card 1 : ℕ) : ℚ)

/-- The verdict expression of `evaluate_resume`:
`"High" if s >= 75 else "Medium" if s >= 50 else "Low"`. -/
def verdictOf (s : ℚ) : String :=
  if s ≥ 75 then "High" else if s ≥ 50 then "Medium" else "Low"

/-- The tier message of the feedback string, keyed by verdict. -/
def tierMsg (verdict : String) : String :=
  if verdict == "High" then "✅ Great match!"
  else if verdict == "Medium" then "⚠️ Partial match."
  else "❌ Low alignment."

/-- Round a rational to the nearest integer, ties to even, the rounding
used when a score is rendered with one decimal place. -/
def roundHalfEvenZ (q : ℚ) : ℤ :=
  let f := ⌊q⌋
  let r := q - (f : ℚ)
  if r < 1/2 then f
  else if 1/2 < r then f + 1
  else if f % 2 = 0 then f else f + 1

/-- Render a rational with one decimal digit, as the Python format
`f"{x:.1f}"` renders a score. -/
def fmt1 (q : ℚ) : String :=
  let n := roundHalfEvenZ (q * 10)
  if n < 0 then
    "-" ++ toString ((-n).toNat / 10) ++ "." ++ toString ((-n).toNat % 10)
  else
    toString (n.toNat / 10) ++ "." ++ toString (n.toNat % 10)

/-- The feedback string built at the end of `evaluate_resume`. -/
def feedbackOf (final_score : ℚ) (verdict : String) (missing_skills : List String) :
    String :=
  let base := "Score: " ++ fmt1 final_score ++ ". " ++ tierMsg verdict
  if missing_skills.isEmpty then base
  else base ++ " Missing: " ++ String.intercalate ", " (missing_skills.take 10) ++ "."

/-- The tuple returned by `evaluate_resume`. -/
structure EvalResult where
  score : ℚ
  verdict : String
  missing_skills : List String
  feedback : String
  deriving Repr, DecidableEq

/-- `evaluate_resume` from `app.py`.  The semantic score is the cosine
similarity computed by the external embedding model; it enters the
function as the parameter `semantic_score`. -/
def evaluate_resume (resume_text jd_text : String) (semantic_score : ℚ)
    (weight_keywords weight_semantics : ℚ) : EvalResult :=
  let kw := keyword_score resume_text jd_text
  let final_score := (kw * weight_keywords + semantic_score * weight_semantics) * 100
  let missing_skills :=
    SKILLS_LIST.filter (fun s => strOccurs s jd_text && !strOccurs s resume_text)
  let verdict := verdictOf final_score
  let feedback := feedbackOf final_score verdict missing_skills
  { score := final_score
    verdict := verdict
    missing_skills := missing_skills
    feedback := feedback }

/-- Modelled from the spec: the section extraction the specification
describes for `parse_resume` — "every maximal run of characters starting
at an occurrence of one of the trigger words through the end of that
line/segment, joining all such matched runs with a single space".  The
cleaned text is a single segment, so each run extends to the end of the
string.  This definition exists only to compare the specified behaviour
with the behaviour of the code. -/
def specSectionRuns (triggers : List String) : List Char → List String
  | [] => []
  | c :: t =>
    (if triggers.any (fun s => leadsWith s.toList (c :: t)) then
        [String.mk (c :: t)] else []) ++ specSectionRuns triggers t

/-- Modelled from the spec: the joined section string the specification
describes (see `specSectionRuns`). -/
def specSection (triggers : List String) (text : String) : String :=
  String.intercalate " " (specSectionRuns triggers text.toList)

/-! ## Helper lemmas -/

lemma toList_isEmpty_false_of_ne_empty (s : String) (h : s ≠ "") :
    s.toList.isEmpty = false := by
  cases s with
  | mk data =>
    cases data with
    | nil => exact absurd (by decide) h
    | cons c cs => rfl

lemma str_append_empty (s : String) : s ++ "" = s := by
  cases s with
  | mk data =>
    show String.mk (data ++ []) = String.mk data
    rw [List.append_nil]

lemma occursIn_nil (needle : List Char) : occursIn needle [] = needle.isEmpty := rfl

lemma occursIn_cons (needle : List Char) (c : Char) (t : List Char) :
    occursIn needle (c :: t) = (leadsWith needle (c :: t) || occursIn needle t) := rfl

lemma firstTriggerAt_nil (triggers : List String) :
    firstTriggerAt triggers [] = none := rfl

lemma firstTriggerAt_cons (triggers : List String) (c : Char) (t : List Char) :
    firstTriggerAt triggers (c :: t) =
      match triggers.find? (fun s => leadsWith s.toList (c :: t)) with
      | some s => some s
      | none => firstTriggerAt triggers t := rfl

lemma sectionCapture_eq_match (triggers : List String) (text : String) :
    sectionCapture triggers text =
      match firstTriggerAt triggers text.toList with
      | some s => s
      | none => "" := rfl

lemma firstTriggerAt_eq_none_iff (triggers : List String) (h : "" ∉ triggers)
    (cs : List Char) :
    firstTriggerAt triggers cs = none ↔
      ∀ s ∈ triggers, occursIn s.toList cs = false := by
  induction cs with
  | nil =>
    rw [firstTriggerAt_nil]
    simp only [true_iff]
    intro s hs
    rw [occursIn_nil]
    exact toList_isEmpty_false_of_ne_empty s (fun hs0 => h (hs0 ▸ hs))
  | cons c t ih =>
    rw [firstTriggerAt_cons]
    constructor
    · intro hnone s hs
      cases hfind : triggers.find? (fun s => leadsWith s.toList (c :: t)) with
      | some x => rw [hfind] at hnone; exact absurd hnone (by simp)
      | none =>
        rw [hfind] at hnone
        have h1 : leadsWith s.toList (c :: t) = false := by
          have := List.find?_eq_none.mp hfind s hs
          simpa using this
        have h2 := (ih.mp hnone) s hs
        rw [occursIn_cons, h1, h2]
        rfl
    · intro hall
      cases hfind : triggers.find? (fun s => leadsWith s.toList (c :: t)) with
      | some x =>
        exfalso
        have hx := List.mem_of_find?_eq_some hfind
        have hpx := List.find?_some hfind
        have hcx := hall x hx
        rw [occursIn_cons, Bool.or_eq_false_iff] at hcx
        simp only at hpx
        rw [hcx.1] at hpx
        exact Bool.false_ne_true hpx
      | none =>
        show firstTriggerAt triggers t = none
        apply ih.mpr
        intro s hs
        have hcs := hall s hs
        rw [occursIn_cons, Bool.or_eq_false_iff] at hcs
        exact hcs.2

lemma firstTriggerAt_eq_some (triggers : List String) (s : String) (cs : List Char)
    (hsome : firstTriggerAt triggers cs = some s) :
    s ∈ triggers ∧ occursIn s.toList cs = true := by
  induction cs with
  | nil => exact absurd (firstTriggerAt_nil triggers ▸ hsome) (by simp)
  | cons c t ih =>
    rw [firstTriggerAt_cons] at hsome
    cases hfind : triggers.find? (fun x => leadsWith x.toList (c :: t)) with
    | some x =>
      rw [hfind] at hsome
      have hx : x = s := by simpa using hsome
      subst hx
      refine ⟨List.mem_of_find?_eq_some hfind, ?_⟩
      have hpx := List.find?_some hfind
      simp only at hpx
      rw [occursIn_cons, hpx]
      rfl
    | none =>
      rw [hfind] at hsome
      obtain ⟨hmem, hocc⟩ := ih hsome
      refine ⟨hmem, ?_⟩
      rw [occursIn_cons, hocc, Bool.or_true]

lemma sectionCapture_spec (triggers : List String) (text : String)
    (h0 : "" ∉ triggers) :
    (sectionCapture triggers text = "" ↔
      ∀ s ∈ triggers, strOccurs s text = false) ∧
    (sectionCapture triggers text ≠ "" →
      sectionCapture triggers text ∈ triggers ∧
        strOccurs (sectionCapture triggers text) text = true) := by
  rw [sectionCapture_eq_match]
  cases hF : firstTriggerAt triggers text.toList with
  | some x =>
    have hx := firstTriggerAt_eq_some triggers x text.toList hF
    constructor
    · constructor
      · intro hempty
        exact absurd (hempty ▸ hx.1) h0
      · intro hall
        have := hall x hx.1
        rw [strOccurs] at this
        rw [this] at hx
        exact absurd hx.2 (by simp)
    · intro _
      exact ⟨hx.1, hx.2⟩
  | none =>
    constructor
    · simp only [true_iff]
      intro s hs
      exact (firstTriggerAt_eq_none_iff triggers h0 text.toList).mp hF s hs
    · intro hne
      exact absurd rfl hne

/-! ## Claim theorems -/

/-- C1: the keyword score of `evaluate_resume` is the size of the
intersection of the whitespace-split word sets of the two texts divided
by `max(|jd word set|, 1)`; punctuation is not stripped, so a token with
trailing punctuation is distinct from the bare token (here
`keyword_score "python" "python."` is `0`, not `1`). -/
theorem keyword_score_intersection_formula (resume_text jd_text : String) :
    keyword_score resume_text jd_text =
      ((wordSet resume_text ∩ wordSet jd_text).card : ℚ) /
        ((max (wordSet jd_text).card 1 : ℕ) : ℚ) ∧
    keyword_score "python" "python." = 0 ∧
    ("python." : String) ≠ "python" := by
  refine ⟨rfl, ?_, by decide⟩
  have h1 : (wordSet "python" ∩ wordSet "python.").card = 0 := by decide
  unfold keyword_score
  rw [h1]
  norm_num

/-- C2: the final score of `evaluate_resume` is
`(keyword_score * weight_keywords + semantic_score * weight_semantics) * 100`,
with no clamping to `[0, 100]` and no normalization of the weights: with
weights `1` and `1` (summing to `2`) and full overlap the score is above
`100`. -/
theorem evaluate_resume_final_score_formula (resume_text jd_text : String)
    (semantic_score weight_keywords weight_semantics : ℚ) :
    (evaluate_resume resume_text jd_text semantic_score
        weight_keywords weight_semantics).score
      = (keyword_score resume_text jd_text * weight_keywords
          + semantic_score * weight_semantics) * 100 ∧
    100 < (evaluate_resume "a" "a" 1 1 1).score := by
  refine ⟨rfl, ?_⟩
  have hs : (evaluate_resume "a" "a" 1 1 1).score
      = (keyword_score "a" "a" * 1 + 1 * 1) * 100 := rfl
  have h1 : (wordSet "a" ∩ wordSet "a").card = 1 := by decide
  have h2 : max (wordSet "a").card 1 = 1 := by decide
  have hk : keyword_score "a" "a" = 1 := by
    unfold keyword_score
    rw [h1, h2]
    norm_num
  rw [hs, hk]
  norm_num

/-- C3: the verdict of `evaluate_resume` is computed from the final
score as High for score ≥ 75, Medium for 50 ≤ score < 75, Low for
score < 50, each tier boundary inclusive on its lower bound: 75 gives
High, 74.999 gives Medium, 50 gives Medium, 49.999 gives Low. -/
theorem evaluate_resume_verdict_tiers (resume_text jd_text : String)
    (semantic_score weight_keywords weight_semantics : ℚ) (s : ℚ) :
    (evaluate_resume resume_text jd_text semantic_score
        weight_keywords weight_semantics).verdict
      = verdictOf (evaluate_resume resume_text jd_text semantic_score
          weight_keywords weight_semantics).score ∧
    (75 ≤ s → verdictOf s = "High") ∧
    (50 ≤ s → s < 75 → verdictOf s = "Medium") ∧
    (s < 50 → verdictOf s = "Low") ∧
    verdictOf 75 = "High" ∧ verdictOf (74999/1000) = "Medium" ∧
    verdictOf 50 = "Medium" ∧ verdictOf (49999/1000) = "Low" := by
  refine ⟨rfl, ?_, ?_, ?_, by norm_num [verdictOf], by norm_num [verdictOf],
    by norm_num [verdictOf], by norm_num [verdictOf]⟩
  · intro h
    simp [verdictOf, h]
  · intro h1 h2
    simp [verdictOf, h1, not_le.mpr h2]
  · intro h
    have h75 : s < 75 := h.trans (by norm_num)
    simp [verdictOf, not_le.mpr h, not_le.mpr h75]

/-- C3 witness: the tier characterization applied at the concrete score
80 yields the verdict High. -/
theorem evaluate_resume_verdict_tiers_witness : verdictOf 80 = "High" :=
  (evaluate_resume_verdict_tiers "" "" 0 0 0 80).2.1 (by norm_num)

/-- C4: the missing skills of `evaluate_resume` are exactly the
vocabulary skills that occur in `jd_text` as a substring and not in
`resume_text`, in vocabulary order; for equal texts the list is empty,
and for an empty resume text it is exactly the vocabulary terms
occurring in the job description. -/
theorem evaluate_resume_missing_skills_exact (resume_text jd_text : String)
    (semantic_score weight_keywords weight_semantics : ℚ) :
    (evaluate_resume resume_text jd_text semantic_score
        weight_keywords weight_semantics).missing_skills
      = SKILLS_LIST.filter
          (fun s => strOccurs s jd_text && !strOccurs s resume_text) ∧
    (evaluate_resume jd_text jd_text semantic_score
        weight_keywords weight_semantics).missing_skills = [] ∧
    (evaluate_resume "" jd_text semantic_score
        weight_keywords weight_semantics).missing_skills
      = SKILLS_LIST.filter (fun s => strOccurs s jd_text) := by
  refine ⟨rfl, ?_, ?_⟩
  · show SKILLS_LIST.filter
        (fun s => strOccurs s jd_text && !strOccurs s jd_text) = []
    apply List.filter_eq_nil_iff.mpr
    intro a _
    simp
  · show SKILLS_LIST.filter
        (fun s => strOccurs s jd_text && !strOccurs s "") = _
    have hall : ∀ x ∈ SKILLS_LIST, x.toList.isEmpty = false := by decide
    apply List.filter_congr
    intro x hx
    have hx0 : strOccurs x "" = false := hall x hx
    rw [hx0]
    simp

/-- C5 counterexample: on the resume text "Education at MIT" the code
sets Education to the bare trigger word "education", while the claimed
run-through-end-of-segment extraction (`specSection`) yields
"education at mit"; the two differ.  `re.findall` with a capture group
returns the group matches, not the whole matches. -/
theorem parse_resume_education_capture_counterexample :
    (parse_resume (fun _ => ["Education at MIT"]) (fun _ => []) "cv.pdf").Education
        = "education" ∧
    specSection educationTriggers
        ((parse_resume (fun _ => ["Education at MIT"]) (fun _ => []) "cv.pdf").FullText)
        = "education at mit" ∧
    ("education" : String) ≠ "education at mit" :=
  ⟨by decide, by decide, by decide⟩

/-- C5 amended: each section field is the space-join of the group
captures of its regex, and a group captures only the trigger word, not
the run to the end of the line; since the normalized text has no
newline there is at most one match, so each section is empty exactly
when no trigger word of that section occurs in the normalized text, and
otherwise is a single trigger word of that section that occurs in the
text (the leftmost occurrence, earliest alternative first). -/
theorem parse_resume_sections_trigger_word_only (raw : String) :
    ((parse_resume_text raw).Education
        = sectionCapture educationTriggers (clean_text raw) ∧
      ((parse_resume_text raw).Education = "" ↔
        ∀ s ∈ educationTriggers, strOccurs s (clean_text raw) = false) ∧
      ((parse_resume_text raw).Education ≠ "" →
        (parse_resume_text raw).Education ∈ educationTriggers ∧
          strOccurs ((parse_resume_text raw).Education) (clean_text raw) = true)) ∧
    ((parse_resume_text raw).Experience
        = sectionCapture experienceTriggers (clean_text raw) ∧
      ((parse_resume_text raw).Experience = "" ↔
        ∀ s ∈ experienceTriggers, strOccurs s (clean_text raw) = false) ∧
      ((parse_resume_text raw).Experience ≠ "" →
        (parse_resume_text raw).Experience ∈ experienceTriggers ∧
          strOccurs ((parse_resume_text raw).Experience) (clean_text raw) = true)) ∧
    ((parse_resume_text raw).Projects
        = sectionCapture projectsTriggers (clean_text raw) ∧
      ((parse_resume_text raw).Projects = "" ↔
        ∀ s ∈ projectsTriggers, strOccurs s (clean_text raw) = false) ∧
      ((parse_resume_text raw).Projects ≠ "" →
        (parse_resume_text raw).Projects ∈ projectsTriggers ∧
          strOccurs ((parse_resume_text raw).Projects) (clean_text raw) = true)) := by
  refine ⟨⟨rfl, ?_, ?_⟩, ⟨rfl, ?_, ?_⟩, ⟨rfl, ?_, ?_⟩⟩
  · exact (sectionCapture_spec educationTriggers (clean_text raw) (by decide)).1
  · exact (sectionCapture_spec educationTriggers (clean_text raw) (by decide)).2
  · exact (sectionCapture_spec experienceTriggers (clean_text raw) (by decide)).1
  · exact (sectionCapture_spec experienceTriggers (clean_text raw) (by decide)).2
  · exact (sectionCapture_spec projectsTriggers (clean_text raw) (by decide)).1
  · exact (sectionCapture_spec projectsTriggers (clean_text raw) (by decide)).2

/-- C5 witness: on the text "summer intern at acme" the Experience
section is a nonempty section string that is one of the experience
trigger words. -/
theorem parse_resume_sections_trigger_word_only_witness :
    (parse_resume_text "summer intern at acme").Experience ∈ experienceTriggers :=
  (((parse_resume_sections_trigger_word_only "summer intern at acme").2.1).2.2
    (by decide)).1

/-- C6: the feedback string is the fixed template: "Score: " followed
by the score rendered to one decimal place, a period and a space, the
tier message keyed by the verdict, and — exactly when missing skills is
non-empty — the suffix " Missing: " with the first 10 missing skills
comma-joined and a final period; never more than 10 entries. -/
theorem evaluate_resume_feedback_template (score : ℚ) (verdict : String)
    (missing : List String) (resume_text jd_text : String)
    (semantic_score weight_keywords weight_semantics : ℚ) :
    feedbackOf score verdict missing
        = "Score: " ++ fmt1 score ++ ". " ++ tierMsg verdict
          ++ (if missing.isEmpty then ""
              else " Missing: " ++ String.intercalate ", " (missing.take 10) ++ ".") ∧
    (missing.take 10).length ≤ 10 ∧
    (evaluate_resume resume_text jd_text semantic_score
        weight_keywords weight_semantics).feedback
      = feedbackOf
          (evaluate_resume resume_text jd_text semantic_score
            weight_keywords weight_semantics).score
          (evaluate_resume resume_text jd_text semantic_score
            weight_keywords weight_semantics).verdict
          (evaluate_resume resume_text jd_text semantic_score
            weight_keywords weight_semantics).missing_skills := by
  refine ⟨?_, ?_, rfl⟩
  · unfold feedbackOf
    cases hm : missing.isEmpty with
    | true => simp only [hm, if_true]; exact (str_append_empty _).symm
    | false => simp only [hm, Bool.false_eq_true, if_false, String.append_assoc]
  · rw [List.length_take]
    exact min_le_left _ _

/-- C7 counterexample: for an empty job description the resume word-set
is trivially a superset of the job-description word-set, yet the keyword
score is 0, not 1. -/
theorem keyword_score_superset_empty_jd_not_one :
    wordSet "" ⊆ wordSet "a" ∧ keyword_score "a" "" = 0 ∧
    ¬ keyword_score "a" "" = 1 := by
  have h0 : (wordSet "a" ∩ wordSet "").card = 0 := by decide
  have hk : keyword_score "a" "" = 0 := by
    unfold keyword_score
    rw [h0]
    norm_num
  exact ⟨by decide, hk, by rw [hk]; norm_num⟩

/-- C7 amended: the keyword score always lies in [0, 1]; it is 1 when
the job-description word-set is non-empty and the resume word-set is a
superset of it; and it is 0 whenever no words overlap and the
job-description has at least one word.  (For an empty job-description
word-set the score is 0 even though the superset condition holds
vacuously, so the superset clause needs the non-emptiness hypothesis.) -/
theorem keyword_score_range_and_extremes (resume_text jd_text : String) :
    0 ≤ keyword_score resume_text jd_text ∧
    keyword_score resume_text jd_text ≤ 1 ∧
    ((wordSet jd_text).Nonempty → wordSet jd_text ⊆ wordSet resume_text →
      keyword_score resume_text jd_text = 1) ∧
    (wordSet resume_text ∩ wordSet jd_text = ∅ → (wordSet jd_text).Nonempty →
      keyword_score resume_text jd_text = 0) := by
  have hd : (0:ℚ) < ((max (wordSet jd_text).card 1 : ℕ) : ℚ) := by
    exact_mod_cast Nat.lt_of_lt_of_le Nat.zero_lt_one (le_max_right _ _)
  refine ⟨?_, ?_, ?_, ?_⟩
  · exact div_nonneg (Nat.cast_nonneg _) (le_of_lt hd)
  · apply (div_le_one hd).mpr
    have h1 : (wordSet resume_text ∩ wordSet jd_text).card ≤ (wordSet jd_text).card :=
      Finset.card_le_card Finset.inter_subset_right
    have h2 : (wordSet jd_text).card ≤ max (wordSet jd_text).card 1 := le_max_left _ _
    exact_mod_cast le_trans h1 h2
  · intro hne hsub
    have hinter : wordSet resume_text ∩ wordSet jd_text = wordSet jd_text :=
      Finset.inter_eq_right.mpr hsub
    have hcard : 0 < (wordSet jd_text).card := Finset.card_pos.mpr hne
    have hmax : max (wordSet jd_text).card 1 = (wordSet jd_text).card :=
      max_eq_left hcard
    unfold keyword_score
    rw [hinter, hmax]
    exact div_self (Nat.cast_ne_zero.mpr (Nat.pos_iff_ne_zero.mp hcard))
  · intro hint _
    unfold keyword_score
    rw [hint]
    simp

/-- C7 witness: the amended superset clause applied at resume "a b" and
job description "a" gives keyword score 1. -/
theorem keyword_score_range_and_extremes_witness : keyword_score "a b" "a" = 1 :=
  (keyword_score_range_and_extremes "a b" "a").2.2.1 ⟨"a", by decide⟩ (by decide)

/-- C8: a vocabulary skill is a member of the skill list produced by
`parse_resume` exactly when it is a substring of the normalized full
text; the skill list is a sublist of the vocabulary (so it follows
vocabulary order), the Skills field is the space-join of that list, and
the list is empty when no vocabulary term occurs in the text. -/
theorem parse_resume_skillset_membership (pdfPages docxParas : String → List String)
    (file_path : String) :
    (∀ s ∈ SKILLS_LIST,
      s ∈ skillsOf ((parse_resume pdfPages docxParas file_path).FullText) ↔
        strOccurs s ((parse_resume pdfPages docxParas file_path).FullText) = true) ∧
    List.Sublist (skillsOf ((parse_resume pdfPages docxParas file_path).FullText))
      SKILLS_LIST ∧
    (parse_resume pdfPages docxParas file_path).Skills
        = joinSpace (skillsOf ((parse_resume pdfPages docxParas file_path).FullText)) ∧
    ((∀ s ∈ SKILLS_LIST,
        strOccurs s ((parse_resume pdfPages docxParas file_path).FullText) = false) →
      skillsOf ((parse_resume pdfPages docxParas file_path).FullText) = []) := by
  refine ⟨?_, List.filter_sublist _, rfl, ?_⟩
  · intro s hs
    constructor
    · intro hmem
      exact (List.mem_filter.mp hmem).2
    · intro hocc
      exact List.mem_filter.mpr ⟨hs, hocc⟩
  · intro hall
    apply List.filter_eq_nil_iff.mpr
    intro a ha
    simp [hall a ha]

/-- C8 witness: a PDF resume whose single page reads "Python and SQL"
yields a skill list containing "python". -/
theorem parse_resume_skillset_membership_witness :
    "python" ∈ skillsOf
      ((parse_resume (fun _ => ["Python and SQL"]) (fun _ => []) "cv.pdf").FullText) :=
  ((parse_resume_skillset_membership (fun _ => ["Python and SQL"]) (fun _ => [])
      "cv.pdf").1 "python" (by decide)).mpr (by decide)

/-- C9: for a path whose lower-cased form ends neither in ".pdf" nor in
".docx", `extract_text` returns the empty string (and, being a total
function, raises no error). -/
theorem extract_text_unknown_extension_empty (pdfPages docxParas : String → List String)
    (file_path : String)
    (h1 : strTrails ".pdf" (lowerStr file_path) = false)
    (h2 : strTrails ".docx" (lowerStr file_path) = false) :
    extract_text pdfPages docxParas file_path = "" := by
  unfold extract_text
  rw [h1, h2]
  simp

/-- C9 witness: a ".TXT" path yields the empty string even when both
readers would return text. -/
theorem extract_text_unknown_extension_empty_witness :
    extract_text (fun _ => ["page"]) (fun _ => ["para"]) "resume.TXT" = "" :=
  extract_text_unknown_extension_empty (fun _ => ["page"]) (fun _ => ["para"])
    "resume.TXT" (by decide) (by decide)

/-- C10: `evaluate_resume` does not normalize its inputs: matching is
case-sensitive.  With the job description "Python required" (vocabulary
skill only in capitalized form) and a resume without that skill, the
skill "python" is absent from missing_skills, while with the lower-case
job description it is present; and differently-cased occurrences of the
same word count as distinct tokens, so the keyword score of "python"
against "Python" is 0. -/
theorem evaluate_resume_case_sensitive :
    "python" ∈ SKILLS_LIST ∧
    strOccurs "python" "Python required" = false ∧
    strOccurs "python" "java dev" = false ∧
    "python" ∉ (evaluate_resume "java dev" "Python required" 0 1 0).missing_skills ∧
    "python" ∈ (evaluate_resume "java dev" "python required" 0 1 0).missing_skills ∧
    keyword_score "python" "Python" = 0 := by
  have h0 : (wordSet "python" ∩ wordSet "Python").card = 0 := by decide
  have hk : keyword_score "python" "Python" = 0 := by
    unfold keyword_score
    rw [h0]
    norm_num
  exact ⟨by decide, by decide, by decide, by decide, by decide, hk⟩

end ResumeChecker
